import Mathlib

/-!
Verification of the path-addressed tree mutation and lookup engine of the
keepass ansible collection (three modules: `secret_writer.py`,
`secret_reader.py`, `group_reader.py`).

The store (a pykeepass database) is an external collaborator; its five
primitives are modelled from the specification's §6 ("exact-path group
lookup, exact-path entry lookup, group/entry creation under a given parent,
entry deletion, save") together with §3/§4's sibling-name-uniqueness
assumption: lookups walk the tree taking the first sibling whose name
matches exactly.  Python dictionaries are modelled as insertion-ordered
association lists with unique keys.  A thrown Python exception is modelled
with `Except`; the distinct exception classes the three modules can raise
are modelled by `PyErr`.
-/

namespace Keepass

/-- Modelled from the spec: the exception classes observable from the three
operations.  `valueError` is the `ValueError("secret_path is required")`
(the spec's `InvalidPathError`); `indexError` models a Python `IndexError`
from indexing an empty list (`path[0]`); `attributeError` models the crash
inside the external store's `add_entry` when the destination group passed
to it is `None` (`'NoneType' object has no attribute ...`). -/
inductive PyErr : Type where
  | valueError (msg : String) : PyErr
  | indexError : PyErr
  | attributeError : PyErr
deriving Repr, DecidableEq

/-- A keepass entry: the fields the three modules touch.  `username`,
`password` and `url` are `None`-able strings; `customProps` models the
entry's custom-property dictionary as an insertion-ordered association
list with unique keys. -/
structure Entry : Type where
  title : String
  username : Option String
  password : Option String
  url : Option String
  customProps : List (String × String)
deriving Repr, DecidableEq

/-- A keepass group: a named node with child groups and child entries,
both in document (insertion) order. -/
inductive Group : Type where
  | node (name : String) (subgroups : List Group) (entries : List Entry) : Group
deriving Repr

def Group.name : Group → String
  | .node n _ _ => n

def Group.subgroups : Group → List Group
  | .node _ s _ => s

def Group.entries : Group → List Entry
  | .node _ _ e => e

/-- The opened database: the root group plus a counter of how many times
`db.save(db_path)` has been invoked (the persistence event log needed to
state the save discipline). -/
structure KpDb : Type where
  root : Group
  saves : Nat
deriving Repr

/-- Python `value if value else skip` truthiness of an optional string:
`None` and `""` are falsy, everything else truthy. -/
def pyTruthy : Option String → Bool
  | none => false
  | some s => s ≠ ""

/-- Python dict item assignment `d[k] = v` on an association list: an
existing key keeps its position and gets the new value, a fresh key is
appended at the end. -/
def dictInsert (d : List (String × String)) (k v : String) : List (String × String) :=
  if d.any (fun p => p.1 = k) then
    d.map (fun p => if p.1 = k then (k, v) else p)
  else
    d ++ [(k, v)]

/-- Python dict lookup `d[k]` on an association list (first match). -/
def dictLookup (d : List (String × String)) (k : String) : Option String :=
  (d.find? (fun p => p.1 = k)).map Prod.snd

/-- Helper for `pySplit`: consumes the characters, accumulating the current
segment in reverse. -/
def pySplitAux : List Char → List Char → List String
  | [], acc => [String.mk acc.reverse]
  | c :: rest, acc =>
      if c = '/' then String.mk acc.reverse :: pySplitAux rest []
      else pySplitAux rest (c :: acc)

/-- Python `s.split("/")`: splits on every `'/'`, keeping the empty
segments produced by leading, trailing or duplicate slashes
(`"".split("/") = [""]`, `"/".split("/") = ["", ""]`). -/
def pySplit (s : String) : List String :=
  pySplitAux s.data []

/-- Python `s.isspace()`: true iff the string is non-empty and every
character is whitespace. -/
def pyIsSpace (s : String) : Bool :=
  !s.data.isEmpty && s.data.all Char.isWhitespace

/-- Modelled from the spec: the external store's exact-path group lookup
(`db.find_groups(path=..., first=True)`).  Walks the tree from the root
group, taking at each level the first subgroup whose name equals the
segment; the empty path denotes the root group itself. -/
def findGroupByPath : Group → List String → Option Group
  | g, [] => some g
  | g, n :: rest =>
      match g.subgroups.find? (fun h => h.name = n) with
      | some h => findGroupByPath h rest
      | none => none

/-- Modelled from the spec: the external store's exact-path entry lookup
(`db.find_entries_by_path(path=...)`).  All segments but the last address
groups, the last is the entry title; the first title match in the resolved
group is returned; the empty path matches no entry. -/
def findEntryByPath (g : Group) (path : List String) : Option Entry :=
  match path with
  | [] => none
  | _ :: _ =>
      match findGroupByPath g path.dropLast with
      | some h => h.entries.find? (fun e => e.title = path.getLastD "")
      | none => none

/-- Replaces the first group named `n` in the list by `f` applied to it;
the other siblings are untouched. -/
def updateFirstGroup (l : List Group) (n : String) (f : Group → Group) : List Group :=
  match l with
  | [] => []
  | g :: gs => if g.name = n then f g :: gs else g :: updateFirstGroup gs n f

/-- Modelled from the spec: the external store's group creation
(`db.add_group(destination_group=parent, group_name=name)`).  The parent
group is addressed by its path from the root (the first-match walk); the
new empty group is appended at the end of its subgroup list. -/
def addGroupAt (g : Group) (parentPath : List String) (name : String) : Group :=
  match parentPath with
  | [] => Group.node g.name (g.subgroups ++ [Group.node name [] []]) g.entries
  | p :: rest =>
      Group.node g.name (updateFirstGroup g.subgroups p (fun h => addGroupAt h rest name)) g.entries

/-- Modelled from the spec: the external store's entry creation
(`db.add_entry(destination_group=parent, ...)`).  The new entry is appended
at the end of the parent group's entry list. -/
def addEntryAt (g : Group) (parentPath : List String) (e : Entry) : Group :=
  match parentPath with
  | [] => Group.node g.name g.subgroups (g.entries ++ [e])
  | p :: rest =>
      Group.node g.name (updateFirstGroup g.subgroups p (fun h => addEntryAt h rest e)) g.entries

/-- Removes the first entry with the given title from a list of entries. -/
def removeFirstEntry (l : List Entry) (t : String) : List Entry :=
  match l with
  | [] => []
  | e :: es => if e.title = t then es else e :: removeFirstEntry es t

/-- Modelled from the spec: the external store's entry deletion
(`db.delete_entry(entry)`), applied to the entry previously located at
`path`: removes the first entry titled `path[-1]` from the group at
`path[:-1]`. -/
def deleteEntryAt (g : Group) (path : List String) : Group :=
  match path with
  | [] => g
  | [t] => Group.node g.name g.subgroups (removeFirstEntry g.entries t)
  | p :: rest =>
      Group.node g.name (updateFirstGroup g.subgroups p (fun h => deleteEntryAt h rest)) g.entries

/-- The single-key output mapping built by `_convert_secret_to_dic` and by
the inline record-building code of the two readers: a Python dict
`{key: fields}` with exactly one key. -/
structure SecretDic : Type where
  key : String
  fields : List (String × String)
deriving Repr, DecidableEq

/-- The shared record-building shape of all three modules
(secret_writer.py lines 329-336, secret_reader.py lines 139-146,
group_reader.py lines 173-182): start from the empty dict, add `username`
and `password` when truthy, then insert every custom property into the
same dict in order. -/
def entryInnerDic (e : Entry) : List (String × String) :=
  let d : List (String × String) := []
  let d := if pyTruthy e.username then dictInsert d "username" (e.username.getD "") else d
  let d := if pyTruthy e.password then dictInsert d "password" (e.password.getD "") else d
  e.customProps.foldl (fun d kv => dictInsert d kv.1 kv.2) d

/-- `_convert_secret_to_dic(path, entry, changed)` of secret_writer.py
(lines 324-339): a dict keyed by `path[-1]` holding the entry's fields,
paired with the `changed` flag. -/
def convert_secret_to_dic (path : List String) (entry : Entry) (changed : Bool) :
    SecretDic × Bool :=
  (⟨path.getLastD "", entryInnerDic entry⟩, changed)

/-- The `set_custom_property` loop shared by all creation branches of
`secret_write`: when a custom-property dict is given, each key/value pair
is attached to the entry in order (`str` coercion is the identity here
because keys and values are modelled as strings); `None` attaches
nothing.  An empty dict is falsy in Python, but iterating it also attaches
nothing, so the `custom_properties and ...` and
`custom_properties is not None and ...` guards of the four branches are
all modelled by this one function. -/
def applyCustomProps (e : Entry) (cps : Option (List (String × String))) : Entry :=
  match cps with
  | none => e
  | some l => { e with customProps := l.foldl (fun d kv => dictInsert d kv.1 kv.2) e.customProps }

/-- The group-materialization walk of `secret_write` (secret_writer.py
lines 268-294).  `path` is the (already filtered) full segment list; the
recursion consumes `remaining = path[i:]`, carrying the accumulated
prefix `group_path`, the `parent_group` (represented by its path from the
root, `none` standing for Python's `None`) and the depth counter `i`.
Each iteration appends the segment to `group_path`, breaks when the last
segment is reached, otherwise looks the prefix up in the store and either
adopts the found group as parent or creates the missing group under the
current parent (the root group when the parent is still `None`).  Returns
the resulting store root and the final parent. -/
def matGo (path : List String) :
    Group → List String → List String → Option (List String) → Nat →
    Group × Option (List String)
  | db, [], _, parent, _ => (db, parent)
  | db, item :: rest, gPath, parent, i =>
      let gPath2 := gPath ++ [item]
      if item = path.getLastD "" ∧ i = path.length - 1 then
        (db, parent)
      else
        match findGroupByPath db gPath2 with
        | some _ => matGo path db rest gPath2 (some gPath2) (i + 1)
        | none =>
            let parentPath := parent.getD []
            matGo path (addGroupAt db parentPath item) rest gPath2
              (some (parentPath ++ [item])) (i + 1)

/-- `secret_write` of secret_writer.py (lines 211-321).  The result is the
pair the Python function returns (the secret dict — `none` modelling the
dead-code `return None, False` — and the changed flag) together with the
resulting store state; a raised exception is `Except.error`.  A raised
exception aborts the invocation before any save, so no store state is
carried on the error side. -/
def secret_write (db : KpDb) (secret_path : Option String) (username : Option String)
    (password : Option String) (url : Option String)
    (custom_properties : Option (List (String × String))) (force : Bool) :
    Except PyErr (Option SecretDic × Bool × KpDb) :=
  match secret_path with
  | none => .error (.valueError "secret_path is required")
  | some s =>
    if s = "" || pyIsSpace s then .error (.valueError "secret_path is required")
    else
      let path := pySplit s
      if path.length > 1 then
        let path := path.filter (fun e => e ≠ "")
        let walk := matGo path db.root path [] none 0
        let root1 := walk.1
        match findEntryByPath root1 path, force with
        | some entry, false =>
            let r := convert_secret_to_dic path entry false
            .ok (some r.1, r.2, { root := root1, saves := db.saves })
        | some _, true =>
            let root2 := deleteEntryAt root1 path
            match path[0]? with
            | none => .error .indexError
            | some t =>
              match walk.2 with
              | none => .error .attributeError
              | some parentPath =>
                  let newE := applyCustomProps
                    { title := t, username := username, password := password, url := url,
                      customProps := [] } custom_properties
                  let r := convert_secret_to_dic path newE true
                  .ok (some r.1, r.2,
                       { root := addEntryAt root2 parentPath newE, saves := db.saves + 1 })
        | none, _ =>
            match path[0]? with
            | none => .error .indexError
            | some t =>
              match walk.2 with
              | none => .error .attributeError
              | some parentPath =>
                  let newE := applyCustomProps
                    { title := t, username := username, password := password, url := url,
                      customProps := [] } custom_properties
                  let r := convert_secret_to_dic path newE true
                  .ok (some r.1, r.2,
                       { root := addEntryAt root1 parentPath newE, saves := db.saves + 1 })
      else if path.length = 1 then
        match findEntryByPath db.root path, force with
        | some entry, false =>
            let r := convert_secret_to_dic path entry false
            .ok (some r.1, r.2, db)
        | some _, true =>
            let root1 := deleteEntryAt db.root path
            let newE := applyCustomProps
              { title := path.getLastD "", username := username, password := password,
                url := url, customProps := [] } custom_properties
            let r := convert_secret_to_dic path newE true
            .ok (some r.1, r.2, { root := addEntryAt root1 [] newE, saves := db.saves + 1 })
        | none, _ =>
            let newE := applyCustomProps
              { title := path.getLastD "", username := username, password := password,
                url := url, customProps := [] } custom_properties
            let r := convert_secret_to_dic path newE true
            .ok (some r.1, r.2, { root := addEntryAt db.root [] newE, saves := db.saves + 1 })
      else
        .ok (none, false, db)

/-- `secret_to_dic` of secret_reader.py (lines 123-147).  Note the raw
split: this reader never filters empty segments.  The returned `none`
models the empty dict `{}` the Python function returns for a missing
entry. -/
def secret_to_dic (db : KpDb) (secret_path : Option String) : Except PyErr (Option SecretDic) :=
  match secret_path with
  | none => .error (.valueError "secret_path is required")
  | some s =>
    if s = "" || pyIsSpace s then .error (.valueError "secret_path is required")
    else
      let path := pySplit s
      match findEntryByPath db.root path with
      | none => .ok none
      | some e => .ok (some ⟨path.getLastD "", entryInnerDic e⟩)

/-- `group_to_dic` of group_reader.py (lines 132-185).  The found group's
direct entries are walked in store order; each is re-resolved by its own
exact path (`entry.path` = the group's path plus the entry's title) and
skipped when the re-resolution fails; each surviving entry contributes a
record keyed by the re-resolved entry's own terminal name. -/
def group_to_dic (db : KpDb) (group_path : Option String) : Except PyErr (List SecretDic) :=
  match group_path with
  | none => .error (.valueError "secret_path is required")
  | some s =>
    if s = "" || pyIsSpace s then .error (.valueError "secret_path is required")
    else
      let path := pySplit s
      if path.length > 0 then
        let path := path.filter (fun e => e ≠ "")
        match findGroupByPath db.root path with
        | none => .ok []
        | some g =>
            .ok (g.entries.foldl (fun acc e =>
              match findEntryByPath db.root (path ++ [e.title]) with
              | none => acc
              | some e2 => acc ++ [⟨e2.title, entryInnerDic e2⟩]) [])
      else .ok []

/-- The segment sequence `secret_write` derives from the raw path string
before any store access (secret_writer.py lines 232-241): the raw split,
filtered of empty segments only when it has more than one element. -/
def writerSegments (s : String) : List String :=
  let p := pySplit s
  if p.length > 1 then p.filter (fun e => e ≠ "") else p

/-- The segment sequence `secret_to_dic` derives from the raw path string
before any store access (secret_reader.py line 134): the raw split,
unfiltered. -/
def readerSegments (s : String) : List String :=
  pySplit s

/-- The segment sequence `group_to_dic` derives from the raw path string
before any store access (group_reader.py lines 148-154): the raw split,
filtered of empty segments (the guard `len(path) > 0` always holds). -/
def groupReaderSegments (s : String) : List String :=
  let p := pySplit s
  if p.length > 0 then p.filter (fun e => e ≠ "") else p

/-- A freshly created database: an empty root group, no saves yet. -/
def emptyDb : KpDb :=
  ⟨Group.node "Root" [] [], 0⟩

/-! Basic lemmas about the path splitter. -/

theorem pySplitAux_ne_nil (l acc : List Char) : pySplitAux l acc ≠ [] := by
  induction l generalizing acc with
  | nil => simp [pySplitAux]
  | cons c rest ih =>
      simp only [pySplitAux]
      split
      · simp
      · exact ih _

theorem pySplit_ne_nil (s : String) : pySplit s ≠ [] :=
  pySplitAux_ne_nil _ _

theorem pySplitAux_singleton (l acc : List Char) (x : String)
    (h : pySplitAux l acc = [x]) : x = String.mk (acc.reverse ++ l) := by
  induction l generalizing acc with
  | nil => simp [pySplitAux] at h; simp [h]
  | cons c rest ih =>
      simp only [pySplitAux] at h
      split at h
      · rename_i hc
        have := pySplitAux_ne_nil rest []
        cases hrest : pySplitAux rest [] with
        | nil => exact absurd hrest this
        | cons y ys => rw [hrest] at h; simp at h
      · rename_i hc
        have := ih (c :: acc) h
        simpa [hc] using this

theorem pySplit_singleton (s : String) (x : String) (h : pySplit s = [x]) : x = s := by
  have := pySplitAux_singleton s.data [] x h
  simpa using this

/-! Basic lemmas about lookups and updates in the group tree. -/

theorem findGroupByPath_append (g : Group) (q₁ q₂ : List String) :
    findGroupByPath g (q₁ ++ q₂) = (findGroupByPath g q₁).bind (fun h => findGroupByPath h q₂) := by
  induction q₁ generalizing g with
  | nil => simp [findGroupByPath]
  | cons n rest ih =>
      simp only [List.cons_append, findGroupByPath]
      cases (Group.subgroups g).find? (fun h => h.name = n) with
      | none => simp
      | some h => simpa using ih h

theorem addGroupAt_name (g : Group) (p : List String) (n : String) :
    (addGroupAt g p n).name = g.name := by
  cases p <;> simp [addGroupAt, Group.name]

theorem addGroupAt_entries (g : Group) (p : List String) (n : String) :
    (addGroupAt g p n).entries = g.entries := by
  cases p <;> simp [addGroupAt, Group.entries]

theorem find?_updateFirstGroup_ne (l : List Group) (n : String) (f : Group → Group)
    (hf : ∀ g, (f g).name = g.name) (a : String) (ha : a ≠ n) :
    (updateFirstGroup l n f).find? (fun g => g.name = a) = l.find? (fun g => g.name = a) := by
  induction l with
  | nil => simp [updateFirstGroup]
  | cons g gs ih =>
      simp only [updateFirstGroup]
      by_cases hg : g.name = n
      · rw [if_pos hg]
        rw [List.find?_cons_of_neg _ (by simp [hf, hg, Ne.symm ha]),
            List.find?_cons_of_neg _ (by simp [hg, Ne.symm ha])]
      · rw [if_neg hg]
        by_cases hga : g.name = a
        · rw [List.find?_cons_of_pos _ (by simp [hga]), List.find?_cons_of_pos _ (by simp [hga])]
        · rw [List.find?_cons_of_neg _ (by simp [hga]), List.find?_cons_of_neg _ (by simp [hga]),
              ih]

theorem find?_updateFirstGroup_eq (l : List Group) (n : String) (f : Group → Group)
    (hf : ∀ g, (f g).name = g.name) :
    (updateFirstGroup l n f).find? (fun g => g.name = n) =
      (l.find? (fun g => g.name = n)).map f := by
  induction l with
  | nil => simp [updateFirstGroup]
  | cons g gs ih =>
      simp only [updateFirstGroup]
      by_cases hg : g.name = n
      · rw [if_pos hg]
        rw [List.find?_cons_of_pos _ (by simp [hf, hg]), List.find?_cons_of_pos _ (by simp [hg])]
        simp
      · rw [if_neg hg]
        rw [List.find?_cons_of_neg _ (by simp [hg]), List.find?_cons_of_neg _ (by simp [hg]), ih]

/-- Creating a group anywhere never removes, renames, or strips entries
from a group reachable at any existing path: the group found at `q`
afterwards has the same name and the same entry list. -/
theorem findGroupByPath_addGroupAt (p : List String) (g : Group) (n : String)
    (q : List String) (h : Group) (hq : findGroupByPath g q = some h) :
    ∃ h', findGroupByPath (addGroupAt g p n) q = some h' ∧
      h'.name = h.name ∧ h'.entries = h.entries := by
  induction p generalizing g q h with
  | nil =>
      obtain ⟨gn, gsubs, gents⟩ := g
      cases q with
      | nil =>
          simp only [findGroupByPath] at hq
          cases hq
          exact ⟨_, rfl, rfl, rfl⟩
      | cons a q' =>
          simp only [findGroupByPath, Group.subgroups, addGroupAt] at hq ⊢
          cases hfind : gsubs.find? (fun h => h.name = a) with
          | none => rw [hfind] at hq; simp at hq
          | some h₀ =>
              rw [hfind] at hq
              refine ⟨h, ?_, rfl, rfl⟩
              rw [List.find?_append, hfind]
              simpa using hq
  | cons p₀ p' ih =>
      obtain ⟨gn, gsubs, gents⟩ := g
      cases q with
      | nil =>
          simp only [findGroupByPath] at hq
          cases hq
          exact ⟨_, rfl, rfl, rfl⟩
      | cons a q' =>
          simp only [findGroupByPath, Group.subgroups, addGroupAt] at hq ⊢
          cases hfind : gsubs.find? (fun h => h.name = a) with
          | none => rw [hfind] at hq; simp at hq
          | some h₀ =>
              rw [hfind] at hq
              by_cases ha : a = p₀
              · subst ha
                rw [find?_updateFirstGroup_eq _ _ _ (fun g => addGroupAt_name g p' n), hfind]
                simp only [Option.map_some']
                exact ih h₀ q' h hq
              · rw [find?_updateFirstGroup_ne _ _ _ (fun g => addGroupAt_name g p' n) a ha, hfind]
                exact ⟨h, hq, rfl, rfl⟩

/-! Lemmas about the group-materialization walk. -/

/-- When every strict prefix of `path` (up to the entry name) already
denotes a group, the walk starting at index `i` performs no store change
and only advances the parent pointer. -/
theorem matGo_exists_aux (path : List String) (db : Group) (rem : List String) :
    ∀ (i : Nat) (parent : Option (List String)),
      rem = path.drop i → i < path.length →
      (∀ j, i ≤ j → j < path.length - 1 → (findGroupByPath db (path.take (j + 1))).isSome) →
      matGo path db rem (path.take i) parent i =
        (db, if i = path.length - 1 then parent else some (path.take (path.length - 1))) := by
  induction rem with
  | nil =>
      intro i parent hdrop hi _
      have : path.length ≤ i := List.drop_eq_nil_iff.mp hdrop.symm
      omega
  | cons item rest ih =>
      intro i parent hdrop hi hex
      rw [List.drop_eq_getElem_cons hi] at hdrop
      injection hdrop with hitem' hrest
      have hitem : path[i] = item := hitem'.symm
      have htake : path.take i ++ [item] = path.take (i + 1) := by
        rw [List.take_succ, List.getElem?_eq_getElem hi, hitem]
        simp
      by_cases hlast : i = path.length - 1
      · have hcond : item = path.getLastD "" ∧ i = path.length - 1 := by
          refine ⟨?_, hlast⟩
          rw [List.getLastD_eq_getLast?, List.getLast?_eq_getElem?,
              List.getElem?_eq_getElem (by omega : path.length - 1 < path.length)]
          simp [← hitem, hlast]
        simp only [matGo, if_pos hcond, if_pos hlast]
      · have hcond : ¬(item = path.getLastD "" ∧ i = path.length - 1) := by
          intro hc; exact hlast hc.2
        have hilt : i < path.length - 1 := by omega
        have hsome := hex i (Nat.le_refl i) hilt
        simp only [matGo, if_neg hcond, htake]
        cases hfind : findGroupByPath db (path.take (i + 1)) with
        | none => rw [hfind] at hsome; simp at hsome
        | some g =>
            have := ih (i + 1) (some (path.take (i + 1))) hrest (by omega)
              (fun j hj hj2 => hex j (by omega) hj2)
            rw [this]
            by_cases h2 : i + 1 = path.length - 1
            · rw [if_pos h2, if_neg hlast, h2]
            · rw [if_neg h2, if_neg hlast]

/-- The full walk over an already-fully-materialized path is the
identity on the store; the final parent is the deepest group path (and
`None` for a single-segment path, whose walk breaks immediately). -/
theorem matGo_all_exist (path : List String) (db : Group) (hpath : path ≠ [])
    (hex : ∀ j, j < path.length - 1 → (findGroupByPath db (path.take (j + 1))).isSome) :
    matGo path db path [] none 0 =
      (db, if path.length = 1 then none else some (path.take (path.length - 1))) := by
  have h0 : (0 : Nat) < path.length := List.length_pos.mpr hpath
  have := matGo_exists_aux path db path 0 none (by simp) h0 (fun j _ hj => hex j hj)
  simp only [List.take_zero] at this
  rw [this]
  by_cases h1 : path.length = 1
  · rw [if_pos (by omega), if_pos h1]
  · rw [if_neg (by omega), if_neg h1]

/-- An entry reachable at `path` forces every strict prefix of `path` to
denote a group. -/
theorem findEntry_prefix_groups (g : Group) (path : List String) (e : Entry)
    (hfe : findEntryByPath g path = some e) (j : Nat) (hj : j < path.length - 1) :
    (findGroupByPath g (path.take (j + 1))).isSome := by
  obtain ⟨h, hg⟩ : ∃ h, findGroupByPath g path.dropLast = some h := by
    cases path with
    | nil => simp [findEntryByPath] at hfe
    | cons a rest =>
        simp only [findEntryByPath] at hfe
        cases hg : findGroupByPath g (a :: rest).dropLast with
        | none => rw [hg] at hfe; simp at hfe
        | some h => exact ⟨h, rfl⟩
  have h1 : path.dropLast.take (j + 1) = path.take (j + 1) := by
    rw [List.dropLast_eq_take, List.take_take]
    congr 1
    omega
  have hL : path.take (j + 1) ++ path.dropLast.drop (j + 1) = path.dropLast := by
    rw [← h1, List.take_append_drop]
  rw [← hL, findGroupByPath_append] at hg
  cases hq : findGroupByPath g (path.take (j + 1)) with
  | none => rw [hq] at hg; simp at hg
  | some _ => simp

/-! Characterizations of the three segment derivations. -/

theorem writerSegments_eq_filter (s : String) (hs : s ≠ "") :
    writerSegments s = (pySplit s).filter (fun e => e ≠ "") := by
  unfold writerSegments
  cases hp : pySplit s with
  | nil => exact absurd hp (pySplit_ne_nil s)
  | cons x rest =>
      cases rest with
      | nil =>
          have hx : x = s := pySplit_singleton s x hp
          subst hx
          simp [hs]
      | cons y rest2 => simp

theorem groupReaderSegments_eq_filter (s : String) :
    groupReaderSegments s = (pySplit s).filter (fun e => e ≠ "") := by
  unfold groupReaderSegments
  cases hp : pySplit s with
  | nil => exact absurd hp (pySplit_ne_nil s)
  | cons x rest => simp

/-- The skip-or-append loop shape of `group_to_dic`, as a `filterMap`:
any fold whose step appends the optional image of the element (and skips
when there is none) collects exactly the `filterMap`. -/
theorem foldl_collect {α β : Type} (f : List β → α → List β) (F : α → Option β)
    (hf : ∀ acc e, f acc e = acc ++ (F e).toList) :
    ∀ (l : List α) (acc : List β), l.foldl f acc = acc ++ l.filterMap F := by
  intro l
  induction l with
  | nil => intro acc; simp
  | cons e rest ih =>
      intro acc
      rw [List.foldl_cons, hf, ih]
      cases hF : F e <;> simp [List.filterMap_cons, hF]

/-- For a non-blank path whose filtered segments resolve to a group
(the empty filtered path resolves to the root group), `group_to_dic`
returns one record per direct entry of that group that survives
re-resolution by its own exact path, in store order, keyed by the
re-resolved entry's title. -/
theorem group_to_dic_found (db : KpDb) (s : String) (g : Group)
    (hs : s ≠ "") (hsp : pyIsSpace s = false)
    (hsome : findGroupByPath db.root (groupReaderSegments s) = some g) :
    group_to_dic db (some s) =
      .ok (g.entries.filterMap (fun e =>
        (findEntryByPath db.root (groupReaderSegments s ++ [e.title])).map
          (fun e2 => SecretDic.mk e2.title (entryInnerDic e2)))) := by
  have hc : (decide (s = "") || pyIsSpace s) = false := by
    simp [hs, hsp]
  have hlen : (pySplit s).length > 0 := by
    have h0 : (pySplit s).length ≠ 0 := by
      simpa [List.length_eq_zero] using pySplit_ne_nil s
    omega
  have hseg : groupReaderSegments s = (pySplit s).filter (fun e => e ≠ "") :=
    groupReaderSegments_eq_filter s
  rw [hseg] at hsome
  simp only [group_to_dic, hc, Bool.false_eq_true, if_false, if_pos hlen, hsome, hseg]
  refine congrArg Except.ok ((foldl_collect _ (fun e : Entry =>
      (findEntryByPath db.root ((pySplit s).filter (fun x => x ≠ "") ++ [e.title])).map
        (fun e2 => SecretDic.mk e2.title (entryInnerDic e2)))
      ?_ g.entries []).trans (List.nil_append _))
  intro acc e
  simp only []
  cases hF : findEntryByPath db.root ((pySplit s).filter (fun x => x ≠ "") ++ [e.title]) <;>
    simp [hF]

/-! The claims. -/

/-- Claim C1 (code bug).  The claimed write-then-read round trip fails on
the code: on a fresh store, `secret_write("/a/b/c", {username:"u",
password:"p"}, force=false)` succeeds and returns the record keyed by the
terminal segment `"c"`, but the entry it creates is titled with the FIRST
segment `"a"` (nested writes use `title=path[0]`), so the subsequent
`secret_to_dic("/a/b/c")` returns the empty mapping, not
`{"c": {"username":"u","password":"p"}}`; the group read of `"/a/b"` shows
the entry keyed `"a"`. -/
theorem c1_roundtrip_code_bug :
    ∃ db1 : KpDb,
      secret_write emptyDb (some "/a/b/c") (some "u") (some "p") none none false =
        .ok (some ⟨"c", [("username", "u"), ("password", "p")]⟩, true, db1) ∧
      secret_to_dic db1 (some "/a/b/c") = .ok none ∧
      group_to_dic db1 (some "/a/b") =
        .ok [⟨"a", [("username", "u"), ("password", "p")]⟩] :=
  ⟨_, rfl, rfl, rfl⟩

/-- Claim C2 (code bug).  A root-level write addressed as `"/solo"` does
NOT create the entry under the root group: `["", "solo"]` has more than
one raw segment, so the nested-path section runs with the filtered
single-segment path, the walk breaks immediately leaving
`parent_group = None`, and `add_entry(destination_group=None, ...)`
crashes.  Only the slash-less spelling `"solo"` reaches the intended
root-group branch. -/
theorem c2_root_write_code_bug :
    secret_write emptyDb (some "/solo") (some "u") none none none false =
      .error .attributeError ∧
    secret_write emptyDb (some "solo") (some "u") none none none false =
      .ok (some ⟨"solo", [("username", "u")]⟩, true,
           ⟨Group.node "Root" [] [⟨"solo", some "u", none, none, []⟩], 1⟩) :=
  ⟨rfl, rfl⟩

/-- The store used to refute claim C3: an entry exists at the exact
segment path `["a", "b"]`. -/
def c3Db : KpDb :=
  ⟨Group.node "Root" [Group.node "a" [] [⟨"b", some "u", none, none, []⟩]] [], 0⟩

/-- Claim C3, counterexample.  `secret_to_dic` does not derive the
filtered segments `["a", "b"]` from `"/a//b/"`: it uses the raw split
`["", "a", "", "b", ""]`, and therefore misses an entry that exists at
`["a", "b"]`. -/
theorem c3_counterexample :
    secret_to_dic c3Db (some "/a//b/") = .ok none ∧
    readerSegments "/a//b/" = ["", "a", "", "b", ""] ∧
    findEntryByPath c3Db.root ["a", "b"] = some ⟨"b", some "u", none, none, []⟩ :=
  ⟨rfl, rfl, rfl⟩

/-- Claim C3, amended.  For every non-empty path string, write-secret and
read-group derive their segment sequences by splitting on `"/"` and
discarding every empty segment (so `"/a//b/"` yields `["a", "b"]`), but
read-secret performs no filtering and uses the raw split, empty segments
included. -/
theorem c3_amended (s : String) (hs : s ≠ "") :
    writerSegments s = (pySplit s).filter (fun e => e ≠ "") ∧
    groupReaderSegments s = (pySplit s).filter (fun e => e ≠ "") ∧
    readerSegments s = pySplit s :=
  ⟨writerSegments_eq_filter s hs, groupReaderSegments_eq_filter s, rfl⟩

/-- Claim C3, amended, witness at `"/a//b/"`. -/
theorem c3_amended_witness :
    writerSegments "/a//b/" = (pySplit "/a//b/").filter (fun e => e ≠ "") ∧
    groupReaderSegments "/a//b/" = (pySplit "/a//b/").filter (fun e => e ≠ "") ∧
    readerSegments "/a//b/" = pySplit "/a//b/" :=
  c3_amended "/a//b/" (by decide)

/-- The store used to refute claim C4 on a non-empty database: a single
entry directly under the root group. -/
def c4Db : KpDb :=
  ⟨Group.node "Root" [] [⟨"solo", some "u", none, none, []⟩], 0⟩

/-- Claim C4, counterexample.  The input `"/"` filters to zero segments
but is NOT rejected with the blank-path `ValueError`: read-secret returns
the empty mapping and write-secret raises `IndexError` (from
`title=path[0]`) after its store lookup; read-group resolves the empty
filtered path to the root group and lists its direct entries — the empty
sequence on the empty store, but a record on a store with a root-level
entry. -/
theorem c4_counterexample :
    secret_to_dic emptyDb (some "/") = .ok none ∧
    group_to_dic emptyDb (some "/") = .ok [] ∧
    secret_write emptyDb (some "/") none none none none false = .error .indexError ∧
    group_to_dic c4Db (some "/") = .ok [⟨"solo", [("username", "u")]⟩] :=
  ⟨rfl, rfl, rfl, rfl⟩

/-- Claim C4, amended.  All three operations raise
`ValueError("secret_path is required")` when the path string is null,
empty, or whitespace-only — independently of the store, hence before any
store access; but a path that filters to zero segments is not rejected
that way: on every store, write-secret on `"/"` fails with `IndexError`
(after its entry lookup), and read-group on `"/"` resolves the empty
filtered path to the root group and returns one record per direct root
entry surviving re-resolution (empty only when the root group holds no
such entries). -/
theorem c4_amended (db : KpDb) (u pw url : Option String)
    (cp : Option (List (String × String))) (f : Bool) (p : Option String)
    (hblank : p = none ∨ p = some "" ∨ ∃ s, p = some s ∧ pyIsSpace s = true) :
    secret_to_dic db p = .error (.valueError "secret_path is required") ∧
    group_to_dic db p = .error (.valueError "secret_path is required") ∧
    secret_write db p u pw url cp f = .error (.valueError "secret_path is required") ∧
    secret_write db (some "/") u pw url cp f = .error .indexError ∧
    group_to_dic db (some "/") =
      .ok (db.root.entries.filterMap (fun e =>
        (findEntryByPath db.root [e.title]).map
          (fun e2 => SecretDic.mk e2.title (entryInnerDic e2)))) := by
  refine ⟨?_, ?_, ?_, ?_, ?_⟩
  · rcases hblank with h | h | ⟨s, h, hsp⟩ <;> subst h <;>
      simp [secret_to_dic, *]
  · rcases hblank with h | h | ⟨s, h, hsp⟩ <;> subst h <;>
      simp [group_to_dic, *]
  · rcases hblank with h | h | ⟨s, h, hsp⟩ <;> subst h <;>
      simp [secret_write, *]
  · have hsplit : pySplit "/" = ["", ""] := rfl
    simp only [secret_write, hsplit]
    norm_num [findEntryByPath, matGo]
    intro h
    exact absurd h (by decide)
  · have hseg : groupReaderSegments "/" = [] := rfl
    have h := group_to_dic_found db "/" db.root (by decide) (by decide)
      (by rw [hseg]; rfl)
    rw [hseg] at h
    simpa using h

/-- Claim C4, amended, witness at the null path and the empty store. -/
theorem c4_amended_witness :
    secret_to_dic emptyDb none = .error (.valueError "secret_path is required") ∧
    group_to_dic emptyDb none = .error (.valueError "secret_path is required") ∧
    secret_write emptyDb none none none none none false =
      .error (.valueError "secret_path is required") ∧
    secret_write emptyDb (some "/") none none none none false = .error .indexError ∧
    group_to_dic emptyDb (some "/") =
      .ok (emptyDb.root.entries.filterMap (fun e =>
        (findEntryByPath emptyDb.root [e.title]).map
          (fun e2 => SecretDic.mk e2.title (entryInnerDic e2)))) :=
  c4_amended emptyDb none none none none false none (Or.inl rfl)

theorem findEntryByPath_ne_nil {g : Group} {path : List String} {e : Entry}
    (h : findEntryByPath g path = some e) : path ≠ [] := by
  intro hp
  subst hp
  simp [findEntryByPath] at h

/-- Claim C5 (confirmed).  No-clobber: when an entry exists at the
(writer-derived) path and `force=false`, `secret_write` returns that
entry's current snapshot with `changed=false`, and the resulting store
state is exactly the input state — no mutation and no save. -/
theorem c5_no_clobber (db : KpDb) (s : String) (u pw url : Option String)
    (cp : Option (List (String × String))) (e : Entry)
    (hs : s ≠ "") (hsp : pyIsSpace s = false)
    (hfound : findEntryByPath db.root (writerSegments s) = some e) :
    secret_write db (some s) u pw url cp false =
      .ok (some ⟨(writerSegments s).getLastD "", entryInnerDic e⟩, false, db) := by
  have hc : (decide (s = "") || pyIsSpace s) = false := by
    simp [hs, hsp]
  simp only [secret_write, hc, Bool.false_eq_true, if_false]
  by_cases hlen : (pySplit s).length > 1
  · have hws : writerSegments s = (pySplit s).filter (fun e => e ≠ "") :=
      writerSegments_eq_filter s hs
    rw [hws] at hfound ⊢
    rw [if_pos hlen]
    have hmat := matGo_all_exist ((pySplit s).filter (fun e => e ≠ "")) db.root
      (findEntryByPath_ne_nil hfound)
      (fun j hj => findEntry_prefix_groups db.root _ e hfound j hj)
    simp only [hmat, hfound, convert_secret_to_dic]
  · rw [if_neg hlen]
    have hws : writerSegments s = pySplit s := by
      unfold writerSegments
      simp [hlen]
    rw [hws] at hfound ⊢
    have hlen1 : (pySplit s).length = 1 := by
      have h0 : (pySplit s).length ≠ 0 := by
        simpa [List.length_eq_zero] using pySplit_ne_nil s
      omega
    rw [if_pos hlen1]
    simp only [hfound, convert_secret_to_dic]

/-- The store used for claim C5's witness. -/
def c5Db : KpDb :=
  ⟨Group.node "Root" [Group.node "x" [] [⟨"y", some "u", some "pw", none, [("k", "v")]⟩]] [], 5⟩

/-- Claim C5, witness at `"/x/y"` on a store holding that entry. -/
theorem c5_no_clobber_witness :
    secret_write c5Db (some "/x/y") (some "other") none none none false =
      .ok (some ⟨(writerSegments "/x/y").getLastD "",
                 entryInnerDic ⟨"y", some "u", some "pw", none, [("k", "v")]⟩⟩, false, c5Db) :=
  c5_no_clobber c5Db "/x/y" (some "other") none none none
    ⟨"y", some "u", some "pw", none, [("k", "v")]⟩ (by decide) (by decide) rfl

/-- The store used to refute claim C6: an entry exists at path `"/solo"`. -/
def c6Db : KpDb :=
  ⟨Group.node "Root" [] [⟨"solo", some "old", none, none, [("g", "m")]⟩], 0⟩

/-- Claim C6, counterexample.  On a store containing an entry at the path
`"/solo"`, the forced write does not delete-and-recreate and return
`changed=true`: the filtered path has a single segment, the walk leaves
`parent_group = None`, and after deleting the old entry the recreation
crashes (`add_entry` with no destination group). -/
theorem c6_counterexample :
    secret_write c6Db (some "/solo") (some "u") none none none true =
      .error .attributeError :=
  rfl

/-- Claim C6, amended.  Forced overwrite as claimed — the existing entry
is deleted, a fresh entry carrying exactly the given fields (and none of
the old entry's custom properties) is created in the parent group, the
store is saved once, and the snapshot of the new entry is returned with
`changed=true` — holds whenever the path either keeps at least two
segments after filtering or is a slash-less single segment; the new
entry's title is the FIRST path segment (which coincides with the
terminal one only in the single-segment case).  Single-segment paths
spelled with slashes (e.g. `"/solo"`) instead crash. -/
theorem c6_forced_overwrite (db : KpDb) (s : String) (u pw url : Option String)
    (cp : Option (List (String × String))) (e : Entry)
    (hs : s ≠ "") (hsp : pyIsSpace s = false)
    (hfound : findEntryByPath db.root (writerSegments s) = some e)
    (hlen : 2 ≤ (writerSegments s).length ∨ (pySplit s).length = 1) :
    secret_write db (some s) u pw url cp true =
      .ok (some ⟨(writerSegments s).getLastD "",
                 entryInnerDic (applyCustomProps
                   ⟨(writerSegments s).headD "", u, pw, url, []⟩ cp)⟩, true,
           ⟨addEntryAt (deleteEntryAt db.root (writerSegments s))
              ((writerSegments s).dropLast)
              (applyCustomProps ⟨(writerSegments s).headD "", u, pw, url, []⟩ cp),
            db.saves + 1⟩) ∧
    (applyCustomProps ⟨(writerSegments s).headD "", u, pw, url, []⟩ cp).customProps =
      (cp.getD []).foldl (fun d kv => dictInsert d kv.1 kv.2) [] := by
  constructor
  · have hc : (decide (s = "") || pyIsSpace s) = false := by
      simp [hs, hsp]
    simp only [secret_write, hc, Bool.false_eq_true, if_false]
    by_cases hp : (pySplit s).length > 1
    · have hws : writerSegments s = (pySplit s).filter (fun e => e ≠ "") :=
        writerSegments_eq_filter s hs
      rw [hws] at hfound hlen ⊢
      rw [if_pos hp]
      have h2 : 2 ≤ ((pySplit s).filter (fun e => e ≠ "")).length := by
        rcases hlen with h | h
        · exact h
        · omega
      have hmat := matGo_all_exist ((pySplit s).filter (fun e => e ≠ "")) db.root
        (findEntryByPath_ne_nil hfound)
        (fun j hj => findEntry_prefix_groups db.root _ e hfound j hj)
      have hne1 : ¬((pySplit s).filter (fun e => e ≠ "")).length = 1 := by omega
      rw [if_neg hne1] at hmat
      have hnn : (pySplit s).filter (fun e => e ≠ "") ≠ [] := findEntryByPath_ne_nil hfound
      have h0 : ((pySplit s).filter (fun e => e ≠ ""))[0]? =
          some (((pySplit s).filter (fun e => e ≠ "")).headD "") := by
        cases hcase : (pySplit s).filter (fun e => e ≠ "") with
        | nil => exact absurd hcase hnn
        | cons a r => simp
      simp only [hmat, hfound, h0, convert_secret_to_dic, List.dropLast_eq_take]
    · rw [if_neg hp]
      have hws : writerSegments s = pySplit s := by
        unfold writerSegments
        simp [hp]
      rw [hws] at hfound ⊢
      have hlen1 : (pySplit s).length = 1 := by
        have h0 : (pySplit s).length ≠ 0 := by
          simpa [List.length_eq_zero] using pySplit_ne_nil s
        omega
      rw [if_pos hlen1]
      obtain ⟨x, hx⟩ := List.length_eq_one.mp hlen1
      rw [hx] at hfound ⊢
      simp only [hfound, convert_secret_to_dic]
      simp [deleteEntryAt, addEntryAt]
  · cases cp <;> simp [applyCustomProps]

/-- The store used for claim C6's witness: a nested entry at `/x/y`
carrying an old custom property. -/
def c6WitDb : KpDb :=
  ⟨Group.node "Root"
     [Group.node "x" [] [⟨"y", some "old", none, none, [("legacy", "1")]⟩]] [], 2⟩

/-- Claim C6, amended, witness at `"/x/y"` with `force=true`. -/
theorem c6_forced_overwrite_witness :
    secret_write c6WitDb (some "/x/y") (some "u") (some "p") none (some [("n", "2")]) true =
      .ok (some ⟨(writerSegments "/x/y").getLastD "",
                 entryInnerDic (applyCustomProps
                   ⟨(writerSegments "/x/y").headD "", some "u", some "p", none, []⟩
                   (some [("n", "2")]))⟩, true,
           ⟨addEntryAt (deleteEntryAt c6WitDb.root (writerSegments "/x/y"))
              ((writerSegments "/x/y").dropLast)
              (applyCustomProps
                ⟨(writerSegments "/x/y").headD "", some "u", some "p", none, []⟩
                (some [("n", "2")])),
            c6WitDb.saves + 1⟩) ∧
    (applyCustomProps
      ⟨(writerSegments "/x/y").headD "", some "u", some "p", none, []⟩
      (some [("n", "2")])).customProps =
      ((some [("n", "2")] : Option (List (String × String))).getD []).foldl
        (fun d kv => dictInsert d kv.1 kv.2) [] :=
  c6_forced_overwrite c6WitDb "/x/y" (some "u") (some "p") none (some [("n", "2")])
    ⟨"y", some "old", none, none, [("legacy", "1")]⟩ (by decide) (by decide) rfl
    (Or.inl (by decide))

/-- Any run of the materialization walk (from any intermediate state)
preserves every group reachable before it: the group found at `q`
afterwards has the same name and the same entries. -/
theorem matGo_preserves (path0 : List String) (rem : List String) :
    ∀ (gPath : List String) (parent : Option (List String)) (i : Nat)
      (db0 : Group) (q : List String) (h : Group),
      findGroupByPath db0 q = some h →
      ∃ h', findGroupByPath (matGo path0 db0 rem gPath parent i).1 q = some h' ∧
        h'.name = h.name ∧ h'.entries = h.entries := by
  induction rem with
  | nil =>
      intro gPath parent i db0 q h hq
      exact ⟨h, hq, rfl, rfl⟩
  | cons item rest ih =>
      intro gPath parent i db0 q h hq
      simp only [matGo]
      split
      · exact ⟨h, hq, rfl, rfl⟩
      · cases hf : findGroupByPath db0 (gPath ++ [item]) with
        | some g =>
            simp only []
            exact ih _ _ _ db0 q h hq
        | none =>
            simp only []
            obtain ⟨h1, hh1, hn1, he1⟩ :=
              findGroupByPath_addGroupAt (parent.getD []) db0 item q h hq
            obtain ⟨h2, hh2, hn2, he2⟩ :=
              ih (gPath ++ [item]) (some (parent.getD [] ++ [item])) (i + 1)
                (addGroupAt db0 (parent.getD []) item) q h1 hh1
            exact ⟨h2, hh2, hn2.trans hn1, he2.trans he1⟩

/-- Claim C7 (confirmed).  Idempotent materialization: on a nested path
whose intermediate groups all exist, the walk performs zero creations
(the store is returned unchanged) and ends with the parent equal to the
deepest existing group's path; moreover no run of the walk (on any path
and any store) ever renames a reachable group, moves it away from its
path, or disturbs its entries. -/
theorem c7_idempotent_materialization (db : Group) (path : List String)
    (h2 : 2 ≤ path.length)
    (hex : ∀ j, j < path.length - 1 → (findGroupByPath db (path.take (j + 1))).isSome) :
    matGo path db path [] none 0 = (db, some path.dropLast) ∧
    ∀ (db0 : Group) (path0 q : List String) (h : Group),
      findGroupByPath db0 q = some h →
      ∃ h', findGroupByPath (matGo path0 db0 path0 [] none 0).1 q = some h' ∧
        h'.name = h.name ∧ h'.entries = h.entries := by
  constructor
  · have hnn : path ≠ [] := by
      intro hp
      rw [hp] at h2
      simp at h2
    have hmat := matGo_all_exist path db hnn hex
    rw [if_neg (by omega)] at hmat
    rw [hmat, List.dropLast_eq_take]
  · intro db0 path0 q h hq
    exact matGo_preserves path0 path0 [] none 0 db0 q h hq

/-- The store used for claim C7's witness: groups `/a` and `/a/b` exist. -/
def c7Db : Group :=
  Group.node "Root" [Group.node "a" [Group.node "b" [] []] []] []

/-- Claim C7, witness at path `["a", "b", "c"]` over `c7Db`. -/
theorem c7_witness :
    (matGo ["a", "b", "c"] c7Db ["a", "b", "c"] [] none 0 =
      (c7Db, some (["a", "b", "c"].dropLast)) ∧
    ∀ (db0 : Group) (path0 q : List String) (h : Group),
      findGroupByPath db0 q = some h →
      ∃ h', findGroupByPath (matGo path0 db0 path0 [] none 0).1 q = some h' ∧
        h'.name = h.name ∧ h'.entries = h.entries) :=
  c7_idempotent_materialization c7Db ["a", "b", "c"] (by decide) (by decide)

/-- Claim C8 (confirmed).  Group bulk read: for every store and non-blank
path, `group_to_dic` returns the empty sequence (not an error) when no
group exists at the full filtered path; otherwise it walks exactly the
group's direct entries in store order, re-resolves each by its own exact
path, drops the ones whose re-resolution fails, and returns one record
per survivor keyed by that entry's own terminal name. -/
theorem c8_group_bulk_read (db : KpDb) (s : String)
    (hs : s ≠ "") (hsp : pyIsSpace s = false) :
    (findGroupByPath db.root (groupReaderSegments s) = none →
      group_to_dic db (some s) = .ok []) ∧
    ∀ g, findGroupByPath db.root (groupReaderSegments s) = some g →
      group_to_dic db (some s) =
        .ok (g.entries.filterMap (fun e =>
          (findEntryByPath db.root (groupReaderSegments s ++ [e.title])).map
            (fun e2 => SecretDic.mk e2.title (entryInnerDic e2)))) := by
  have hc : (decide (s = "") || pyIsSpace s) = false := by
    simp [hs, hsp]
  have hlen : (pySplit s).length > 0 := by
    have h0 : (pySplit s).length ≠ 0 := by
      simpa [List.length_eq_zero] using pySplit_ne_nil s
    omega
  have hseg : groupReaderSegments s = (pySplit s).filter (fun e => e ≠ "") :=
    groupReaderSegments_eq_filter s
  constructor
  · intro hnone
    rw [hseg] at hnone
    simp only [group_to_dic, hc, Bool.false_eq_true, if_false, if_pos hlen, hnone]
  · intro g hsome
    exact group_to_dic_found db s g hs hsp hsome

/-- The store used for claim C8's witness: group `/g` holds entries `x`
and `y`. -/
def c8Db : KpDb :=
  ⟨Group.node "Root"
     [Group.node "g" []
        [⟨"x", some "ux", none, none, []⟩, ⟨"y", none, some "py", none, []⟩]] [], 0⟩

/-- Claim C8, witness at `"/g"` over `c8Db`. -/
theorem c8_witness :
    (findGroupByPath c8Db.root (groupReaderSegments "/g") = none →
      group_to_dic c8Db (some "/g") = .ok []) ∧
    ∀ g, findGroupByPath c8Db.root (groupReaderSegments "/g") = some g →
      group_to_dic c8Db (some "/g") =
        .ok (g.entries.filterMap (fun e =>
          (findEntryByPath c8Db.root (groupReaderSegments "/g" ++ [e.title])).map
            (fun e2 => SecretDic.mk e2.title (entryInnerDic e2)))) :=
  c8_group_bulk_read c8Db "/g" (by decide) (by decide)

/-- Claim C9 (confirmed).  Persistence discipline: whenever `secret_write`
returns normally, the save counter advanced by exactly one on every
`changed=true` outcome (the mutating branches all save once) and is
untouched on every `changed=false` outcome (the no-op branch never
saves). -/
theorem c9_save_discipline (db : KpDb) (p : Option String) (u pw url : Option String)
    (cp : Option (List (String × String))) (f : Bool)
    (r : Option SecretDic × Bool × KpDb)
    (h : secret_write db p u pw url cp f = .ok r) :
    (r.2.1 = true → r.2.2.saves = db.saves + 1) ∧
    (r.2.1 = false → r.2.2.saves = db.saves) := by
  simp only [secret_write] at h
  repeat' split at h
  all_goals
    first
      | (simp at h; done)
      | (injection h with h2; subst h2;
         constructor <;> intro hb <;> simp_all [convert_secret_to_dic])

/-- Claim C9, witness: a creating write (`changed=true`) on the empty
store advanced the save counter by one. -/
theorem c9_witness :
    (((some (⟨"solo", [("username", "u")]⟩ : SecretDic), true,
       (⟨Group.node "Root" [] [⟨"solo", some "u", none, none, []⟩], 1⟩ : KpDb)) :
        Option SecretDic × Bool × KpDb).2.1 = true →
      ((some (⟨"solo", [("username", "u")]⟩ : SecretDic), true,
        (⟨Group.node "Root" [] [⟨"solo", some "u", none, none, []⟩], 1⟩ : KpDb)).2.2.saves =
        emptyDb.saves + 1)) ∧
    (((some (⟨"solo", [("username", "u")]⟩ : SecretDic), true,
       (⟨Group.node "Root" [] [⟨"solo", some "u", none, none, []⟩], 1⟩ : KpDb)) :
        Option SecretDic × Bool × KpDb).2.1 = false →
      ((some (⟨"solo", [("username", "u")]⟩ : SecretDic), true,
        (⟨Group.node "Root" [] [⟨"solo", some "u", none, none, []⟩], 1⟩ : KpDb)).2.2.saves =
        emptyDb.saves)) :=
  c9_save_discipline emptyDb (some "solo") (some "u") none none none false _ rfl

/-! Association-list lemmas for the shadowing claim. -/

theorem find?_no_key (d : List (String × String)) (k : String)
    (h : d.any (fun p => p.1 = k) = false) :
    d.find? (fun p => p.1 = k) = none := by
  induction d with
  | nil => rfl
  | cons p rest ih =>
      simp only [List.any_cons, Bool.or_eq_false_iff] at h
      rw [List.find?_cons_of_neg _ (by simp [h.1])]
      exact ih h.2

theorem find?_map_overwrite (d : List (String × String)) (k v : String)
    (h : d.any (fun p => p.1 = k) = true) :
    (d.map (fun p => if p.1 = k then (k, v) else p)).find? (fun p => p.1 = k) =
      some (k, v) := by
  induction d with
  | nil => simp at h
  | cons p rest ih =>
      by_cases hp : p.1 = k
      · rw [List.map_cons, if_pos hp, List.find?_cons_of_pos _ (by simp)]
      · rw [List.map_cons, if_neg hp, List.find?_cons_of_neg _ (by simp [hp])]
        simp only [List.any_cons, hp] at h
        exact ih (by simpa using h)

theorem find?_map_overwrite_ne (d : List (String × String)) (k2 v k : String)
    (hkk : k2 ≠ k) :
    (d.map (fun p => if p.1 = k2 then (k2, v) else p)).find? (fun p => p.1 = k) =
      d.find? (fun p => p.1 = k) := by
  induction d with
  | nil => rfl
  | cons p rest ih =>
      by_cases hp : p.1 = k2
      · rw [List.map_cons, if_pos hp, List.find?_cons_of_neg _ (by simp [hkk]),
            List.find?_cons_of_neg _ (by simp [hp, hkk])]
        exact ih
      · rw [List.map_cons, if_neg hp]
        by_cases hpk : p.1 = k
        · rw [List.find?_cons_of_pos _ (by simp [hpk]), List.find?_cons_of_pos _ (by simp [hpk])]
        · rw [List.find?_cons_of_neg _ (by simp [hpk]), List.find?_cons_of_neg _ (by simp [hpk])]
          exact ih

theorem dictLookup_dictInsert_self (d : List (String × String)) (k v : String) :
    dictLookup (dictInsert d k v) k = some v := by
  unfold dictLookup dictInsert
  by_cases h : d.any (fun p => p.1 = k)
  · rw [if_pos h, find?_map_overwrite d k v h]
    rfl
  · rw [if_neg h]
    rw [List.find?_append, find?_no_key d k (by rwa [Bool.not_eq_true] at h)]
    simp

theorem dictLookup_dictInsert_ne (d : List (String × String)) (k2 v k : String)
    (hkk : k2 ≠ k) :
    dictLookup (dictInsert d k2 v) k = dictLookup d k := by
  unfold dictLookup dictInsert
  by_cases h : d.any (fun p => p.1 = k2)
  · rw [if_pos h, find?_map_overwrite_ne d k2 v k hkk]
  · rw [if_neg h, List.find?_append]
    have : List.find? (fun p => p.1 = k) [(k2, v)] = none := by
      simp [List.find?, hkk]
    rw [this]
    cases d.find? (fun p => p.1 = k) <;> rfl

theorem dictLookup_foldInsert_no_key (l : List (String × String))
    (d : List (String × String)) (k : String) (hk : ∀ p ∈ l, p.1 ≠ k) :
    dictLookup (l.foldl (fun d kv => dictInsert d kv.1 kv.2) d) k = dictLookup d k := by
  induction l generalizing d with
  | nil => rfl
  | cons kv rest ih =>
      rw [List.foldl_cons, ih _ (fun p hp => hk p (List.mem_cons_of_mem kv hp)),
          dictLookup_dictInsert_ne d kv.1 kv.2 k (hk kv (List.mem_cons_self kv rest))]

theorem dictLookup_foldInsert_of_mem (l : List (String × String))
    (d : List (String × String)) (k v : String)
    (hmem : (k, v) ∈ l) (hnd : (l.map Prod.fst).Nodup) :
    dictLookup (l.foldl (fun d kv => dictInsert d kv.1 kv.2) d) k = some v := by
  induction l generalizing d with
  | nil => simp at hmem
  | cons kv rest ih =>
      rw [List.map_cons, List.nodup_cons] at hnd
      rcases List.mem_cons.mp hmem with heq | hmem2
      · rw [List.foldl_cons, ← heq]
        have hk : ∀ p ∈ rest, p.1 ≠ k := by
          intro p hp hpk
          apply hnd.1
          rw [← heq]
          have hmem3 : p.1 ∈ List.map Prod.fst rest := List.mem_map_of_mem Prod.fst hp
          rw [hpk] at hmem3
          simpa using hmem3
        rw [dictLookup_foldInsert_no_key rest _ k hk]
        exact dictLookup_dictInsert_self d k v
      · rw [List.foldl_cons]
        exact ih _ hmem2 hnd.2

/-- Claim C10 (confirmed).  Custom-property key shadowing: the record
builder shared by all three operations inserts custom properties into the
same inner mapping after the `username`/`password` keys, so a custom
property named `"username"` or `"password"` overwrites the field value:
the record maps that key to the custom-property value whatever the
entry's actual field holds.  The second conjunct anchors the builder in
an operation: a successful single-secret read returns exactly this
record. -/
theorem c10_custom_property_shadowing (e : Entry) (k v : String)
    (_hk : k = "username" ∨ k = "password")
    (hnd : (e.customProps.map Prod.fst).Nodup)
    (hmem : (k, v) ∈ e.customProps) :
    dictLookup (entryInnerDic e) k = some v ∧
    ∀ (db : KpDb) (s : String), s ≠ "" → pyIsSpace s = false →
      findEntryByPath db.root (readerSegments s) = some e →
      secret_to_dic db (some s) =
        .ok (some ⟨(readerSegments s).getLastD "", entryInnerDic e⟩) := by
  constructor
  · unfold entryInnerDic
    exact dictLookup_foldInsert_of_mem e.customProps _ k v hmem hnd
  · intro db s hs hsp hfound
    have hc : (decide (s = "") || pyIsSpace s) = false := by
      simp [hs, hsp]
    unfold readerSegments at hfound
    simp only [secret_to_dic, hc, Bool.false_eq_true, if_false, hfound, readerSegments]

/-- The entry used for claim C10's witness: its username field holds
`"real"`, but a custom property named `"username"` holds `"shadow"`. -/
def c10Entry : Entry :=
  ⟨"t", some "real", some "pw", none, [("username", "shadow"), ("x", "y")]⟩

/-- Claim C10, witness: the record built for `c10Entry` reports
`"shadow"` under the `"username"` key. -/
theorem c10_witness :
    dictLookup (entryInnerDic c10Entry) "username" = some "shadow" ∧
    ∀ (db : KpDb) (s : String), s ≠ "" → pyIsSpace s = false →
      findEntryByPath db.root (readerSegments s) = some c10Entry →
      secret_to_dic db (some s) =
        .ok (some ⟨(readerSegments s).getLastD "", entryInnerDic c10Entry⟩) :=
  c10_custom_property_shadowing c10Entry "username" "shadow" (Or.inl rfl)
    (by decide) (by decide)

end Keepass
